import Mathlib

/-!
# Verification of the internet-search-bot core

A shallow embedding, in Lean 4, of the two algorithmic components of the
repository:

* `src/bots/main_bot/yandex_search.py` — the Yandex search-provider client:
  XML result parsing (`_parse_search_results`, `_get_element_full_text`,
  `_clean_text`), result filtering (`optimize_results`), the submit/poll
  pipeline of `YandexSearchAPI.search`.
* `src/bots/main_bot/mcp_client.py` — the agent loop (`MCPClient.process_query`),
  its per-turn tool-call handling, and `MCPClient.cleanup`.

Machinery of the environment (HTTP, asyncio, the XML string-level parser
`ET.fromstring`, base64) is modelled by oracles: every place where the Python
code performs an external call that can fail, the embedding takes the outcome
of that call (success value / raised exception / timeout) as input, and the
definitions reproduce the Python control flow over those outcomes.  Exceptions
are values of `Except`; a function whose Lean type is not `Except` cannot
raise, mirroring a Python function that never lets an exception escape.
-/

/-! ## XML document model

`xml.etree.ElementTree` elements, as used by `_parse_search_results`.
An element has a tag, its own text (`.text`, `None` modelled as `""`),
the text following it (`.tail`), and a list of children.  The mutual
inductive keeps all recursions structural.
-/

mutual

inductive XmlElem : Type where
  | mk (tag text tailText : String) (children : XmlForest)

inductive XmlForest : Type where
  | nil
  | cons (head : XmlElem) (rest : XmlForest)

end

def XmlElem.tag : XmlElem → String
  | .mk t _ _ _ => t

def XmlElem.text : XmlElem → String
  | .mk _ t _ _ => t

def XmlElem.tailText : XmlElem → String
  | .mk _ _ t _ => t

def XmlElem.children : XmlElem → XmlForest
  | .mk _ _ _ c => c

def XmlForest.isNil : XmlForest → Bool
  | .nil => true
  | .cons _ _ => false

/-- Python truthiness of an `Element`: an element is truthy iff it has
children (`Element.__len__ != 0`); `None` is falsy.  Used by the
`if properties_elem:` guards in `_parse_search_results`. -/
def elemTruthy : Option XmlElem → Bool
  | none => false
  | some e => !e.children.isNil

/-- `Element.find(tag)`: first direct child with the given tag, or `None`. -/
def forestFind (tag : String) : XmlForest → Option XmlElem
  | .nil => none
  | .cons c rest => if c.tag = tag then some c else forestFind tag rest

def XmlElem.find (e : XmlElem) (tag : String) : Option XmlElem :=
  forestFind tag e.children

/-- `Element.findtext(tag, default)`: text of the first direct child with the
given tag, or the default when no such child exists. -/
def XmlElem.findtext (e : XmlElem) (tag dflt : String) : String :=
  match e.find tag with
  | some c => c.text
  | none => dflt

mutual

/-- `Element.itertext()`: the text nodes of an element and all of its
descendants, in document order (`.text` of the element, then for each child
its own itertext followed by its `.tail`). -/
def elemTexts : XmlElem → List String
  | .mk _ text _ children => text :: forestTexts children

def forestTexts : XmlForest → List String
  | .nil => []
  | .cons c rest => elemTexts c ++ [c.tailText] ++ forestTexts rest

end

mutual

/-- `Element.iter(tag)`: the element itself (when its tag matches) and all
matching descendants, in document (pre-)order. -/
def elemIterTag (tag : String) : XmlElem → List XmlElem
  | .mk t text tailText children =>
    (if t = tag then [XmlElem.mk t text tailText children] else []) ++
      forestIterTag tag children

def forestIterTag (tag : String) : XmlForest → List XmlElem
  | .nil => []
  | .cons c rest => elemIterTag tag c ++ forestIterTag tag rest

end

/-! ## Text cleaning helpers of `yandex_search.py` -/

/-- Python `str.strip()`: remove leading and trailing whitespace. -/
def pyStrip (s : String) : String :=
  String.mk (((s.data.dropWhile Char.isWhitespace).reverse.dropWhile
    Char.isWhitespace).reverse)

/-- `_get_element_full_text`: `''.join(element.itertext()).strip()` when the
element is present, `""` otherwise. -/
def getElementFullText : Option XmlElem → String
  | none => ""
  | some e => pyStrip (String.join (elemTexts e))

/-- State machine computing `re.sub(r"<[^>]+>", "", text)`: the regex removes
each leftmost-first span that starts at `<`, continues with one or more
non-`>` characters, and ends at the first following `>`.  A `<` that is
immediately followed by `>` or that has no `>` after it matches nothing and
is kept.  The first argument holds the reversed characters scanned since an
open `<` that has not yet been resolved. -/
def stripTagsGo : Option (List Char) → List Char → List Char
  | none, [] => []
  | some buf, [] => buf.reverse
  | none, c :: rest =>
    if c = '<' then stripTagsGo (some [c]) rest
    else c :: stripTagsGo none rest
  | some buf, c :: rest =>
    if c = '>' then
      if 2 ≤ buf.length then stripTagsGo none rest
      else buf.reverse ++ c :: stripTagsGo none rest
    else stripTagsGo (some (c :: buf)) rest

def stripTags (s : String) : String :=
  String.mk (stripTagsGo none s.data)

/-- `_clean_text`: strip HTML/XML tags and surrounding whitespace; empty
input is returned unchanged. -/
def cleanText (text : String) : String :=
  if text = "" then "" else pyStrip (stripTags text)

/-! ## Parsed search records (`_parse_search_results`) -/

/-- One parsed result document, the dictionary built at the end of the
per-document body of `_parse_search_results`. -/
structure SearchRecord where
  url : String
  domain : String
  title : String
  headline : String
  modtime : String
  lang : String
  content : String
deriving DecidableEq, Repr

/-- The non-empty passage texts of a document: for each `<passage>` descendant
(in document order) its full text, kept only when non-empty
(`if passage_text: passages.append(passage_text)`). -/
def passageTexts (doc : XmlElem) : List String :=
  ((elemIterTag "passage" doc).map (fun p => getElementFullText (some p))).filter
    (fun s => !(s == ""))

/-- The per-document body of `_parse_search_results` (lines 144-185 of
`yandex_search.py`): extract url/domain/title/headline/modtime/lang and choose
the main content by priority — `extended-text` under `properties` when the
`properties` element is truthy and the `extended-text` child exists; when the
resulting content is empty, the space-joined non-empty passage texts; when
still empty and the headline is non-empty, the headline.  The chosen content
finally passes through `_clean_text`. -/
def extractDoc (doc : XmlElem) : SearchRecord :=
  let url := doc.findtext "url" ""
  let domain := doc.findtext "domain" ""
  let title := cleanText (getElementFullText (doc.find "title"))
  let headline := cleanText (getElementFullText (doc.find "headline"))
  let modtime := doc.findtext "modtime" ""
  let properties := doc.find "properties"
  let lang := if elemTruthy properties then
      (match properties with
       | some p => p.findtext "lang" ""
       | none => "")
    else ""
  let content0 :=
    if elemTruthy properties then
      (match properties with
       | some p =>
         (match p.find "extended-text" with
          | some ext => getElementFullText (some ext)
          | none => "")
       | none => "")
    else ""
  let content1 := if content0 = "" then
      String.intercalate " " (passageTexts doc)
    else content0
  let content2 := if content1 = "" ∧ headline ≠ "" then headline else content1
  { url := url, domain := domain, title := title, headline := headline,
    modtime := modtime, lang := lang, content := cleanText content2 }

/-- The `<doc>` elements of a parsed payload, as iterated by
`root.iter('doc')`. -/
def docsOf (root : XmlElem) : List XmlElem :=
  elemIterTag "doc" root

/-- The control-flow skeleton of `_parse_search_results`.  The input models
the outcome of `ET.fromstring(xml_content)` (`Except.error` = `ParseError` or
any other exception raised at top level); `extract` models the per-document
body, whose possible exception is the one caught by the inner
`except Exception ... continue`.  The real parser instantiates `extract` with
the (total) `extractDoc`; keeping it a parameter expresses that the inner
`try`/`except` isolates a failing document whatever the failure is. -/
def parseSearchResultsCore (extract : XmlElem → Except String SearchRecord) :
    Except String XmlElem → List SearchRecord
  | .error _ => []
  | .ok root => go (docsOf root)
where
  go : List XmlElem → List SearchRecord
    | [] => []
    | d :: rest =>
      match extract d with
      | .ok r => r :: go rest
      | .error _ => go rest

/-- `_parse_search_results`, with the per-document body instantiated. -/
def parseSearchResults : Except String XmlElem → List SearchRecord :=
  parseSearchResultsCore (fun d => .ok (extractDoc d))

/-! ## `optimize_results` -/

/-- `optimize_results(parsed_results, min_length, max_length)`:
`[item for item in parsed_results if item.get("content") and
max_length > len(item["content"]) > min_length]`.  In the source
`min_length` defaults to `0` and `max_length` to `float('inf')`; the model
takes `min_length : ℤ` and `max_length : WithTop ℤ` so that the infinite
default is representable (`⊤`). -/
def optimize_results (parsed_results : List SearchRecord) (min_length : ℤ)
    (max_length : WithTop ℤ) : List SearchRecord :=
  parsed_results.filter (fun item =>
    !(item.content == "") &&
      (decide ((item.content.length : WithTop ℤ) < max_length) &&
        decide (min_length < (item.content.length : ℤ))))

/-! ## The polling loop of `YandexSearchAPI.search` -/

/-- Observable events of one polling loop: an HTTP status GET, and a
`asyncio.sleep(1)` for one fixed unit. -/
inductive PollEvent : Type where
  | get
  | sleep
deriving DecidableEq, Repr

/-- Outcome of one poll attempt (`session.get(operations_url/...)` plus
`resp.json()`):
* `exn` — the GET or the JSON decoding raised (propagates out of the loop);
* `badStatus` — `resp.status != 200`;
* `notDone` — status 200 and `operation.get("done")` falsy;
* `done dec` — status 200 and done; `dec` is the outcome of
  `base64.b64decode(operation["response"]["rawData"]).decode("utf-8")`
  together with the key lookups, which may themselves raise. -/
inductive PollAttempt (α : Type) : Type where
  | exn (msg : String)
  | badStatus
  | notDone
  | done (decoded : Except String α)

/-- The `while attempts < 10` polling loop for one operation id
(lines 433-452 of `yandex_search.py`).  Returns the ordered list of
events (GETs and sleeps) together with the outcome: `ok (some payload)` when
an attempt reported done and decoding succeeded, `ok none` when the attempt
budget ran out, `error` when an attempt raised.  A `badStatus` or `notDone`
attempt sleeps one unit and increments the counter; a done attempt breaks
out before any further sleep. -/
def pollAux {α : Type} (oracle : Nat → PollAttempt α) (attempts : Nat) :
    List PollEvent × Except String (Option α) :=
  if attempts < 10 then
    match oracle attempts with
    | .exn m => ([.get], .error m)
    | .badStatus =>
      let pr := pollAux oracle (attempts + 1)
      (PollEvent.get :: PollEvent.sleep :: pr.1, pr.2)
    | .notDone =>
      let pr := pollAux oracle (attempts + 1)
      (PollEvent.get :: PollEvent.sleep :: pr.1, pr.2)
    | .done (.ok payload) => ([.get], .ok (some payload))
    | .done (.error m) => ([.get], .error m)
  else ([], .ok none)
termination_by 10 - attempts

/-- The polling loop started at `attempts = 0`, as `search` does per
operation id. -/
def pollOp {α : Type} (oracle : Nat → PollAttempt α) :
    List PollEvent × Except String (Option α) :=
  pollAux oracle 0

/-! ## The `search` pipeline -/

/-- Outcome of one page submission (`session.post(... /v2/web/searchAsync)`
plus `resp.json()["id"]`): raised / non-200 (page skipped) / operation id. -/
inductive SubmitOutcome : Type where
  | exn (msg : String)
  | badStatus
  | ok (opId : String)

/-- The external-world behaviour one `search` call observes.  A decoded
payload is modelled by the outcome `ET.fromstring` would have on it, which is
what `_parse_search_results` consumes. -/
structure SearchEnv : Type where
  sessionOpen : Except String Unit
  submit : Nat → SubmitOutcome
  poll : String → Nat → PollAttempt (Except String XmlElem)

/-- The submission loop of `search`: one POST per page, in order; non-200
pages are skipped (`continue`), a raised exception propagates. -/
def submitAll (env : SearchEnv) : Nat → List Nat → Except String (List String)
  | _, [] => .ok []
  | idx, _page :: rest =>
    match env.submit idx with
    | .exn m => .error m
    | .badStatus => submitAll env (idx + 1) rest
    | .ok opId =>
      match submitAll env (idx + 1) rest with
      | .error m => .error m
      | .ok ids => .ok (opId :: ids)

/-- The per-operation polling phase of `search`: operations whose poll loop
produced no payload contribute nothing; a raised exception propagates. -/
def pollAll (env : SearchEnv) : List String → Except String (List (Except String XmlElem))
  | [] => .ok []
  | opId :: rest =>
    match (pollOp (env.poll opId)).2 with
    | .error m => .error m
    | .ok none => pollAll env rest
    | .ok (some xml) =>
      match pollAll env rest with
      | .error m => .error m
      | .ok xmls => .ok (xml :: xmls)

/-- The body of the top-level `try` in `YandexSearchAPI.search`: open the
session, submit every page, poll every returned operation, parse every
decoded payload. -/
def searchPipeline (env : SearchEnv) (pages_to_fetch : List Nat) :
    Except String (List SearchRecord) :=
  match env.sessionOpen with
  | .error m => .error m
  | .ok _ =>
    match submitAll env 0 pages_to_fetch with
    | .error m => .error m
    | .ok ops =>
      match pollAll env ops with
      | .error m => .error m
      | .ok xmls => .ok (xmls.flatMap parseSearchResults)

/-- `YandexSearchAPI.search`: the pipeline wrapped in
`try ... except Exception: return []`. -/
def search (env : SearchEnv) (pages_to_fetch : List Nat) : List SearchRecord :=
  match searchPipeline env pages_to_fetch with
  | .ok records => records
  | .error _ => []

/-! ## The MCP client model (`mcp_client.py`)

Conversation data, as handled by `MCPClient.process_query`.
-/

/-- One model-issued tool call (`{"id": ..., "function": {"name": ...,
"arguments": <raw JSON string>}}`). -/
structure ToolCall : Type where
  id : String
  name : String
  arguments : String
deriving DecidableEq, Repr

inductive Role : Type where
  | system
  | user
  | assistant
  | tool
deriving DecidableEq, Repr

/-- One conversation message, as appended to `messages` in `process_query`.
Messages without tool calls carry `tool_calls = []`; messages that are not
tool-role carry `tool_call_id = ""`. -/
structure Message : Type where
  role : Role
  content : String
  tool_calls : List ToolCall
  tool_call_id : String
deriving DecidableEq, Repr

def Message.assistantMsg (content : String) (tool_calls : List ToolCall) : Message :=
  { role := .assistant, content := content, tool_calls := tool_calls,
    tool_call_id := "" }

def Message.toolMsg (tool_call_id content : String) : Message :=
  { role := .tool, content := content, tool_calls := [],
    tool_call_id := tool_call_id }

/-- One item of the content list a tool returns; `text s` models an item with
a `.text` attribute, `other` an item without one. -/
inductive ContentItem : Type where
  | text (s : String)
  | other
deriving DecidableEq, Repr

/-- `MCPClient._format_tool_result`: keep the text of the items that have a
`.text` attribute, join with newlines. -/
def formatToolResult (content_list : List ContentItem) : String :=
  String.intercalate "\n" (content_list.filterMap (fun item =>
    match item with
    | .text s => some s
    | .other => none))

/-- Outcome of handling one tool call inside the per-call `try` block of
`process_query`:
* `parseError` — `json.loads(function.get("arguments", ...))` raised;
* `timeout` — `asyncio.wait_for(... call_tool ...)` raised `TimeoutError`;
* `exn` — the call raised any other exception;
* `ok` — the call returned a content list. -/
inductive ToolOutcome : Type where
  | parseError (msg : String)
  | timeout
  | exn (msg : String)
  | ok (content : List ContentItem)

/-- The normalized reply of one `_call_llm` call: optional text content
(`""` when absent) and the optional tool-call list (`[]` when absent).
`_call_llm` itself converts non-200 responses and its own exceptions into a
content-only reply, so it returns normally whenever `wait_for` does not time
out. -/
structure LLMResponse : Type where
  content : String
  tool_calls : List ToolCall

/-- Outcome of one `asyncio.wait_for(self._call_llm(...))` step as seen by an
iteration of the loop: a normal reply, a `TimeoutError`, or any other
exception raised inside the iteration body (caught by the iteration's generic
`except Exception`). -/
inductive LLMStep : Type where
  | ok (resp : LLMResponse)
  | timeout
  | exn (msg : String)

/-- The environment one `process_query` call observes: the system-message
ingredients, the reply to the k-th LLM call (k counts every `_call_llm`,
including the final wrap-up call), and the outcome of tool call `j` of
iteration `i`. -/
structure Env : Type where
  instructions : String
  toolsDescriptionText : String
  llm : Nat → LLMStep
  tool : Nat → Nat → ToolOutcome

/-- `MCPClient._create_system_message`, with `_tools_description`'s rendering
of the tool catalog abstracted as a string. -/
def createSystemMessage (env : Env) : String :=
  env.instructions ++ "\n\nУ тебя есть доступ к следующим инструментам:\n" ++
    env.toolsDescriptionText

/-- The text recorded as the result of one tool call, by outcome: the
formatted content on success, the timeout text on `TimeoutError`, the
exception text otherwise (a JSON parse failure takes the same route as any
other exception: the per-call `except Exception`). -/
def toolResultText (tool_name : String) : ToolOutcome → String
  | .ok content => formatToolResult content
  | .timeout => "Таймаут при вызове инструмента " ++ tool_name
  | .parseError m => "Ошибка при вызове инструмента " ++ tool_name ++ ": " ++ m
  | .exn m => "Ошибка при вызове инструмента " ++ tool_name ++ ": " ++ m

/-- The `for tool_call in tool_calls` loop of `process_query` (lines
510-574): processes the calls sequentially (call `j` gets outcome
`outcome j`), and for each call produces exactly one tool-role message keyed
by the call's id, plus the entry appended to `tool_results`. -/
def processToolCallsAux (outcome : Nat → ToolOutcome) :
    Nat → List ToolCall → List Message × List String
  | _, [] => ([], [])
  | j, tc :: rest =>
    let txt := toolResultText tc.name (outcome j)
    let pr := processToolCallsAux outcome (j + 1) rest
    (Message.toolMsg tc.id txt :: pr.1, txt :: pr.2)

def processToolCalls (outcome : Nat → ToolOutcome) (tool_calls : List ToolCall) :
    List Message × List String :=
  processToolCallsAux outcome 0 tool_calls

/-- Diagnostic fragments appended to `final_text` by the loop. -/
def llmTimeoutMsg (n : Nat) : String :=
  "\nТаймаут LLM на итерации " ++ toString n

def iterErrorMsg (n : Nat) (m : String) : String :=
  "\nОшибка на итерации " ++ toString n ++ ": " ++ m

def finalAnswerMsg (c : String) : String :=
  "\nИтоговый ответ: " ++ c

def finalTimeoutMsg : String :=
  "\nТаймаут при получении финального ответа"

/-- The `for i in range(max_iterations)` loop of `process_query`
(lines 475-602), with `max_iterations = 10`.  `remaining` is the number of
iterations still allowed (`10` initially, so the current zero-based index is
`i = 10 - remaining`); `callIdx` counts LLM calls.  Returns the final
`final_text` transcript together with the list of logged iteration numbers
(`i + 1`, as in `Итерация {i+1}/{max_iterations}`).

Per iteration: call the LLM (timeout or any other in-iteration exception
appends a diagnostic fragment and breaks); append non-empty content to the
transcript; stop when there are no tool calls; otherwise append the assistant
message and one tool-role message per tool call, and — on the last allowed
iteration, when `tool_results` is non-empty — issue one extra wrap-up LLM
call whose non-empty content is appended marked as a final summary (its
timeout appends a diagnostic, any other failure appends nothing). -/
def loopAux (env : Env) :
    Nat → Nat → List Message → List String → List Nat → List String × List Nat
  | 0, _, _, final_text, itersLog => (final_text, itersLog)
  | r + 1, callIdx, messages, final_text, itersLog =>
    let i := 10 - (r + 1)
    let log := itersLog ++ [i + 1]
    match env.llm callIdx with
    | .timeout => (final_text ++ [llmTimeoutMsg (i + 1)], log)
    | .exn m => (final_text ++ [iterErrorMsg (i + 1) m], log)
    | .ok resp =>
      let ft1 := if resp.content = "" then final_text
        else final_text ++ [resp.content]
      match resp.tool_calls with
      | [] => (ft1, log)
      | tc :: tcs =>
        let pr := processToolCalls (env.tool i) (tc :: tcs)
        let msgs2 := messages ++ [Message.assistantMsg resp.content (tc :: tcs)]
          ++ pr.1
        if r = 0 ∧ ¬ pr.2.isEmpty then
          let ft2 := match env.llm (callIdx + 1) with
            | .ok fr => if fr.content = "" then ft1
              else ft1 ++ [finalAnswerMsg fr.content]
            | .timeout => ft1 ++ [finalTimeoutMsg]
            | .exn _ => ft1
          loopAux env r (callIdx + 2) msgs2 ft2 log
        else
          loopAux env r (callIdx + 1) msgs2 ft1 log

/-- `process_query` up to the result-selection line: seed the conversation
with the system and user messages and run the loop. -/
def processQueryRun (env : Env) (query : String) : List String × List Nat :=
  loopAux env 10 0
    [{ role := .system, content := createSystemMessage env, tool_calls := [],
       tool_call_id := "" },
     { role := .user, content := query, tool_calls := [], tool_call_id := "" }]
    [] []

/-- `MCPClient.process_query`: run the loop and return
`final_text[len(final_text) - 1] if len(final_text) > 0 else "Пустой ответ."`
(line 604).  Total: every failure the environment can inject is converted to
a transcript fragment inside the loop. -/
def processQuery (env : Env) (query : String) : String :=
  (processQueryRun env query).1.getLastD "Пустой ответ."

/-! ## `MCPClient.cleanup` -/

/-- The outcomes of the three awaited teardown operations during one
`cleanup` invocation: `self.http_client.aclose()`, `self.mcp_client.close()`
and `self.exit_stack.aclose()` (each may raise). -/
structure CleanupCalls : Type where
  httpAclose : Except String Unit
  mcpClose : Except String Unit
  stackAclose : Except String Unit

/-- The client state `cleanup` touches: whether the LLM HTTP client and the
MCP HTTP client have been closed, whether `self.mcp_client` exists
(`hasattr`), and `self.exit_stack` (`none` models the `None` the `finally`
block assigns; the attribute itself always exists after `__init__`). -/
structure ClientRes : Type where
  httpClosed : Bool
  hasMcp : Bool
  mcpClosed : Bool
  exitStack : Option Unit
deriving DecidableEq, Repr

/-- `MCPClient.cleanup` (lines 906-932): three isolated steps.
1. `try: await self.http_client.aclose() except Exception: pass`;
2. `if hasattr(self, "mcp_client"): try: ... close() except Exception: pass`;
3. `if hasattr(self, "exit_stack"): try: await self.exit_stack.aclose()
   except Exception: log; finally: self.exit_stack = None` — when
   `exit_stack` is already `None` (a second call), the attribute access
   raises `AttributeError`, which the same `except` swallows.
The `Except` return type makes "never raises" a statement: an unhandled
exception would surface as `.error`. -/
def cleanup (calls : CleanupCalls) (s : ClientRes) : Except String ClientRes :=
  let s1 : ClientRes :=
    match calls.httpAclose with
    | .ok _ => { s with httpClosed := true }
    | .error _ => s
  let s2 : ClientRes :=
    if s1.hasMcp then
      match calls.mcpClose with
      | .ok _ => { s1 with mcpClosed := true }
      | .error _ => s1
    else s1
  let s3 : ClientRes :=
    match s2.exitStack with
    | none => { s2 with exitStack := none }
    | some _ =>
      match calls.stackAclose with
      | .ok _ => { s2 with exitStack := none }
      | .error _ => { s2 with exitStack := none }
  .ok s3

/-! ## Definitions taken from the specification's wording

`specContentChoiceC7` follows the words of the content-priority claim
literally, to be compared against `extractDoc`; `amendedContentChoiceC7`
follows the amended wording. -/

/-- The content-priority rule as the claim states it: the extended-text
property when it is present; otherwise the concatenation of the document's
passage fragments when any exist; otherwise the headline (the record's
headline field).  The claim then applies the tag-stripping cleaner to the
chosen text. -/
def specContentChoiceC7 (doc : XmlElem) : String :=
  match (doc.find "properties").bind (fun p => p.find "extended-text") with
  | some ext => getElementFullText (some ext)
  | none =>
    match passageTexts doc with
    | [] => cleanText (getElementFullText (doc.find "headline"))
    | p :: ps => String.intercalate " " (p :: ps)

/-- The amended content-priority rule: the extended-text property when it is
present **and its extracted text is non-empty**; otherwise the space-joined
concatenation of the non-empty passage fragments **when that concatenation is
non-empty**; otherwise the headline. -/
def amendedContentChoiceC7 (doc : XmlElem) : String :=
  let ext :=
    match (doc.find "properties").bind (fun p => p.find "extended-text") with
    | some e => getElementFullText (some e)
    | none => ""
  if ext ≠ "" then ext
  else
    let pj := String.intercalate " " (passageTexts doc)
    if pj ≠ "" then pj
    else cleanText (getElementFullText (doc.find "headline"))

/-- A document whose `properties` carries an empty `extended-text` element
and which has a non-empty passage: here the code uses the passage text while
the claim's priority rule selects the (empty) extended text. -/
def extEmptyDoc : XmlElem :=
  .mk "doc" "" ""
    (.cons (.mk "properties" "" ""
        (.cons (.mk "extended-text" "" "" .nil) .nil))
      (.cons (.mk "passage" "hello" "" .nil) .nil))

/-- Polling oracle for the witness: attempts 0 and 1 report a non-200
status, attempt 2 reports the operation done. -/
def pollOracleW : Nat → PollAttempt String :=
  fun k => if k = 2 then .done (.ok "payload") else .badStatus

/-- Search environment for the witness: opening the HTTP session itself
raises. -/
def searchEnvW : SearchEnv :=
  { sessionOpen := .error "ClientConnectorError",
    submit := fun _ => .badStatus,
    poll := fun _ _ => .badStatus }

/-! ## Theorems -/

/-- Helper: a string with a non-empty left part of an append is non-empty. -/
theorem append_ne_empty_of_left_ne_empty (a b : String) (ha : a ≠ "") :
    a ++ b ≠ "" := by
  intro h
  apply ha
  have hd : a.data ++ b.data = ([] : List Char) := by
    have hc := congrArg String.data h
    simpa [String.data_append] using hc
  have hae : a.data = [] := (List.append_eq_nil.mp hd).1
  cases a
  simp_all

/-- C6: `optimize_results` keeps exactly the records with non-empty content
whose content length lies strictly inside the open interval
`(min_length, max_length)`; being a `List.filter`, it keeps survivors
unchanged and in order (sublist of the input).  With `min_length = 30` and
the default `max_length = ⊤` this excludes precisely the records with empty
content or content length ≤ 30. -/
theorem optimize_results_keeps_open_interval (parsed_results : List SearchRecord)
    (min_length : ℤ) (max_length : WithTop ℤ) :
    optimize_results parsed_results min_length max_length =
      parsed_results.filter (fun r =>
        !(r.content == "") &&
          (decide (min_length < (r.content.length : ℤ)) &&
            decide ((r.content.length : WithTop ℤ) < max_length))) ∧
    (optimize_results parsed_results min_length max_length).Sublist
      parsed_results := by
  constructor
  · unfold optimize_results
    apply List.filter_congr
    intro r _
    cases hr : (r.content == "") <;> simp [Bool.and_comm]
  · exact List.filter_sublist _

/-- Helper for C5: the per-document loop keeps exactly the successfully
extracted documents, in order. -/
theorem parseCore_go_eq_filterMap (extract : XmlElem → Except String SearchRecord)
    (l : List XmlElem) :
    parseSearchResultsCore.go extract l =
      l.filterMap (fun d => (extract d).toOption) := by
  induction l with
  | nil => rfl
  | cons d rest ih =>
    simp only [parseSearchResultsCore.go, List.filterMap_cons]
    cases h : extract d <;> simp [h, ih, Except.toOption]

/-- C5: the result parser always returns a list and never raises — a
malformed top-level payload (an `ET.fromstring` failure, or any other
top-level exception) yields `[]`, and a document whose extraction raises is
skipped while every remaining document of the payload is still parsed,
whatever the extraction behaviour is. -/
theorem parse_search_results_error_isolation
    (extract : XmlElem → Except String SearchRecord) :
    (∀ err : String, parseSearchResultsCore extract (.error err) = []) ∧
    (∀ root : XmlElem,
      parseSearchResultsCore extract (.ok root) =
        (docsOf root).filterMap (fun d => (extract d).toOption)) := by
  constructor
  · intro err
    rfl
  · intro root
    simp only [parseSearchResultsCore]
    exact parseCore_go_eq_filterMap extract (docsOf root)

/-- Helper for C9: one `cleanup` call always returns normally and always
leaves `exit_stack` released. -/
theorem cleanup_ok (c : CleanupCalls) (s : ClientRes) :
    ∃ s' : ClientRes, cleanup c s = .ok s' ∧ s'.exitStack = none := by
  obtain ⟨ha, hm, hs⟩ := c
  obtain ⟨hc, hasM, mc, es⟩ := s
  cases ha <;> cases hm <;> cases hs <;> cases hasM <;> cases es <;>
    exact ⟨_, rfl, rfl⟩

/-- C9: calling `cleanup` twice in succession never raises on either call —
whatever each teardown operation does (including the second call finding
`exit_stack` already set to `None`, whose attribute access raises an
`AttributeError` that the handler swallows), both calls return normally, and
after each call `exit_stack` is released. -/
theorem cleanup_twice_never_raises (c₁ c₂ : CleanupCalls) (s : ClientRes) :
    ∃ s₁ s₂ : ClientRes,
      cleanup c₁ s = .ok s₁ ∧ s₁.exitStack = none ∧
      cleanup c₂ s₁ = .ok s₂ ∧ s₂.exitStack = none := by
  obtain ⟨s₁, h₁, h₁'⟩ := cleanup_ok c₁ s
  obtain ⟨s₂, h₂, h₂'⟩ := cleanup_ok c₂ s₁
  exact ⟨s₁, s₂, h₁, h₁', h₂, h₂'⟩

/-- C10: `YandexSearchAPI.search` never raises — whenever any exception
escapes the submit/poll/parse pipeline (session opening included), the
top-level handler catches it and `search` returns the empty record list. -/
theorem search_catches_pipeline_errors (env : SearchEnv) (pages : List Nat)
    (h : (searchPipeline env pages).isOk = false) :
    search env pages = [] := by
  unfold search
  cases hp : searchPipeline env pages with
  | ok r => rw [hp] at h; simp [Except.isOk, Except.toBool] at h
  | error m => rfl

/-- Witness for C10: with a session that fails to open, the pipeline raises
and `search` returns `[]`. -/
theorem search_catches_pipeline_errors_witness : search searchEnvW [0] = [] :=
  search_catches_pipeline_errors searchEnvW [0] rfl

/-- Helper for C1: the tool-call loop, started at any index, produces one
tool-role message per call, in order, keyed by each call's id, and one
`tool_results` entry per call. -/
theorem processToolCallsAux_spec (outcome : Nat → ToolOutcome) (j : Nat)
    (tool_calls : List ToolCall) :
    (processToolCallsAux outcome j tool_calls).1.length = tool_calls.length ∧
    (processToolCallsAux outcome j tool_calls).1.map Message.role =
      List.replicate tool_calls.length Role.tool ∧
    (processToolCallsAux outcome j tool_calls).1.map Message.tool_call_id =
      tool_calls.map ToolCall.id ∧
    (processToolCallsAux outcome j tool_calls).2.length = tool_calls.length := by
  induction tool_calls generalizing j with
  | nil => simp [processToolCallsAux]
  | cons tc rest ih =>
    obtain ⟨ih1, ih2, ih3, ih4⟩ := ih (j + 1)
    simp [processToolCallsAux, Message.toolMsg, ih1, ih2, ih3, ih4,
      List.replicate_succ]

/-- C1: for a model turn whose response carries `N` tool calls, the loop
produces exactly `N` tool-role messages, in the order of the model's
`tool_calls` list, each carrying the `tool_call_id` of its request — and it
does so for every outcome assignment (success, raised exception, JSON parse
failure, timeout), i.e. exactly one message per call regardless of outcome.
These are precisely the messages `loopAux` appends after the assistant
message. -/
theorem tool_messages_one_per_call (outcome : Nat → ToolOutcome)
    (tool_calls : List ToolCall) :
    (processToolCalls outcome tool_calls).1.length = tool_calls.length ∧
    (processToolCalls outcome tool_calls).1.map Message.role =
      List.replicate tool_calls.length Role.tool ∧
    (processToolCalls outcome tool_calls).1.map Message.tool_call_id =
      tool_calls.map ToolCall.id ∧
    (processToolCalls outcome tool_calls).2.length = tool_calls.length :=
  processToolCallsAux_spec outcome 0 tool_calls

theorem llmTimeoutMsg_ne_empty (n : Nat) : llmTimeoutMsg n ≠ "" :=
  append_ne_empty_of_left_ne_empty _ _ (by decide)

theorem iterErrorMsg_ne_empty (n : Nat) (m : String) : iterErrorMsg n m ≠ "" :=
  append_ne_empty_of_left_ne_empty _ _
    (append_ne_empty_of_left_ne_empty _ _
      (append_ne_empty_of_left_ne_empty _ _ (by decide)))

theorem finalAnswerMsg_ne_empty (c : String) : finalAnswerMsg c ≠ "" :=
  append_ne_empty_of_left_ne_empty _ _ (by decide)

theorem finalTimeoutMsg_ne_empty : finalTimeoutMsg ≠ "" := by decide


theorem length_pos_of_ne_empty (s : String) (h : s ≠ "") : 0 < s.length := by
  cases s with
  | mk data =>
    cases data with
    | nil => exact absurd rfl h
    | cons c cs => simp [String.length]

/-- Helper for C2/C4: the loop only ever appends non-empty fragments to the
transcript — model content is appended only when non-empty, and every
diagnostic fragment is non-empty by construction. -/
theorem loopAux_transcript_ne_empty (env : Env) :
    ∀ (r callIdx : Nat) (messages : List Message) (final_text : List String)
      (itersLog : List Nat),
      (∀ s ∈ final_text, s ≠ "") →
      ∀ s ∈ (loopAux env r callIdx messages final_text itersLog).1, s ≠ "" := by
  intro r
  induction r with
  | zero =>
    intro callIdx messages final_text itersLog hft s hs
    simp only [loopAux] at hs
    exact hft s hs
  | succ r ih =>
    intro callIdx messages final_text itersLog hft s hs
    cases hllm : env.llm callIdx with
    | timeout =>
      simp only [loopAux, hllm] at hs
      rcases List.mem_append.mp hs with h | h
      · exact hft s h
      · simp only [List.mem_singleton] at h
        subst h
        exact llmTimeoutMsg_ne_empty _
    | exn m =>
      simp only [loopAux, hllm] at hs
      rcases List.mem_append.mp hs with h | h
      · exact hft s h
      · simp only [List.mem_singleton] at h
        subst h
        exact iterErrorMsg_ne_empty _ _
    | ok resp =>
      have hft1 : ∀ t ∈ (if resp.content = "" then final_text
          else final_text ++ [resp.content]), t ≠ "" := by
        intro t ht
        by_cases hc : resp.content = ""
        · rw [if_pos hc] at ht
          exact hft t ht
        · rw [if_neg hc] at ht
          rcases List.mem_append.mp ht with h | h
          · exact hft t h
          · simp only [List.mem_singleton] at h
            subst h
            exact hc
      cases htc : resp.tool_calls with
      | nil =>
        simp only [loopAux, hllm, htc] at hs
        exact hft1 s hs
      | cons tc tcs =>
        simp only [loopAux, hllm, htc] at hs
        split at hs
        · refine ih _ _ _ _ ?_ s hs
          cases hw : env.llm (callIdx + 1) with
          | ok fr =>
            simp only [hw]
            by_cases hfc : fr.content = ""
            · simp only [if_pos hfc]
              exact hft1
            · simp only [if_neg hfc]
              intro t ht
              rcases List.mem_append.mp ht with h | h
              · exact hft1 t h
              · simp only [List.mem_singleton] at h
                subst h
                exact finalAnswerMsg_ne_empty _
          | timeout =>
            simp only [hw]
            intro t ht
            rcases List.mem_append.mp ht with h | h
            · exact hft1 t h
            · simp only [List.mem_singleton] at h
              subst h
              exact finalTimeoutMsg_ne_empty
          | exn m =>
            simp only [hw]
            exact hft1
        · exact ih _ _ _ _ hft1 s hs

/-- C2: `process_query` is total (in the model a plain `String`-valued
function: no exception reaches the caller for any environment behaviour,
including tool calls that raise or time out and any other in-loop failure,
all of which become descriptive transcript fragments) and the returned
string is always non-empty. -/
theorem process_query_total_nonempty (env : Env) (query : String) :
    0 < (processQuery env query).length := by
  unfold processQuery
  have hne : ∀ s ∈ (processQueryRun env query).1, s ≠ "" := by
    unfold processQueryRun
    exact loopAux_transcript_ne_empty env 10 0 _ [] [] (by simp)
  cases hft : (processQueryRun env query).1 with
  | nil => decide
  | cons a as =>
    have hmem : (a :: as).getLastD "Пустой ответ." ∈ a :: as := by
      rw [List.getLastD_eq_getLast?, List.getLast?_eq_getLast (a :: as) (by simp)]
      simp only [Option.getD_some]
      exact List.getLast_mem _
    exact length_pos_of_ne_empty _ (hne _ (hft ▸ hmem))

/-- C4: the caller-visible answer is the last non-empty transcript fragment
(every accumulated fragment is non-empty, so the last fragment is the last
non-empty one — and it is a single fragment, not a concatenation); when no
fragment was accumulated the literal sentinel `"Пустой ответ."` ("empty
response") is returned. -/
theorem process_query_result_selection (env : Env) (query : String) :
    processQuery env query =
      ((processQueryRun env query).1.filter (fun s => !(s == ""))).getLastD
        "Пустой ответ." := by
  have hne : ∀ s ∈ (processQueryRun env query).1, s ≠ "" := by
    unfold processQueryRun
    exact loopAux_transcript_ne_empty env 10 0 _ [] [] (by simp)
  have hfi : (processQueryRun env query).1.filter (fun s => !(s == "")) =
      (processQueryRun env query).1 := by
    apply List.filter_eq_self.mpr
    intro a ha
    simpa using hne a ha
  unfold processQuery
  rw [hfi]

/-- Helper for C3: started with `r ≤ 10` remaining iterations, the loop logs
some `k ≤ r` consecutive iteration numbers beginning at `11 - r`. -/
theorem loopAux_iters (env : Env) :
    ∀ (r : Nat), r ≤ 10 →
      ∀ (callIdx : Nat) (messages : List Message) (final_text : List String)
        (itersLog : List Nat),
        ∃ k, k ≤ r ∧
          (loopAux env r callIdx messages final_text itersLog).2 =
            itersLog ++ List.range' (11 - r) k := by
  intro r
  induction r with
  | zero =>
    intro _ callIdx messages final_text itersLog
    exact ⟨0, le_refl 0, by simp [loopAux]⟩
  | succ r ih =>
    intro hr callIdx messages final_text itersLog
    have hr' : r ≤ 10 := by omega
    have h1 : 10 - (r + 1) + 1 = 10 - r := by omega
    have h2 : 11 - (r + 1) = 10 - r := by omega
    have h3 : 11 - r = 10 - r + 1 := by omega
    cases hllm : env.llm callIdx with
    | timeout =>
      refine ⟨1, by omega, ?_⟩
      simp only [loopAux, hllm, h1, h2]
      simp [List.range'_one]
    | exn m =>
      refine ⟨1, by omega, ?_⟩
      simp only [loopAux, hllm, h1, h2]
      simp [List.range'_one]
    | ok resp =>
      cases htc : resp.tool_calls with
      | nil =>
        refine ⟨1, by omega, ?_⟩
        simp only [loopAux, hllm, htc, h1, h2]
        simp [List.range'_one]
      | cons tc tcs =>
        simp only [loopAux, hllm, htc]
        split
        · obtain ⟨k, hk, heq⟩ :=
            ih hr' (callIdx + 2) _ _ (itersLog ++ [10 - (r + 1) + 1])
          refine ⟨k + 1, by omega, ?_⟩
          rw [heq, h1, h2, h3, List.range'_succ]
          simp
        · obtain ⟨k, hk, heq⟩ :=
            ih hr' (callIdx + 1) _ _ (itersLog ++ [10 - (r + 1) + 1])
          refine ⟨k + 1, by omega, ?_⟩
          rw [heq, h1, h2, h3, List.range'_succ]
          simp

/-- C3: for every query the loop performs at most 10 model-call iterations —
the logged iteration numbers are exactly `1, 2, ..., k` for some `k ≤ 10`,
so every iteration counter lies in `[1, 10]` and the loop is never retried
beyond the cap. -/
theorem process_query_iteration_cap (env : Env) (query : String) :
    ∃ k, k ≤ 10 ∧ (processQueryRun env query).2 = List.range' 1 k := by
  obtain ⟨k, hk, heq⟩ := loopAux_iters env 10 (by omega) 0 _ [] []
  refine ⟨k, hk, ?_⟩
  unfold processQueryRun
  rw [heq]
  simp

/-- C7 counterexample: on a document whose `properties` holds a present but
empty `extended-text` and which has the passage text `"hello"`, the code's
content is `"hello"` (the passages), while the claimed priority rule — use
the extended-text property whenever it is present — yields `""`. -/
theorem content_priority_claim_counterexample :
    (extractDoc extEmptyDoc).content = "hello" ∧
    cleanText (specContentChoiceC7 extEmptyDoc) = "" ∧
    (extractDoc extEmptyDoc).content ≠ cleanText (specContentChoiceC7 extEmptyDoc) := by
  refine ⟨by decide, by decide, by decide⟩

/-- C7 (amended): the record's content is the cleaner applied to: the
extended-text property's text when it is present and non-empty; otherwise the
space-joined concatenation of the non-empty passage fragments when that
concatenation is non-empty; otherwise the headline. -/
theorem content_priority_amended (doc : XmlElem) :
    (extractDoc doc).content = cleanText (amendedContentChoiceC7 doc) := by
  simp only [extractDoc, amendedContentChoiceC7]
  have hext : (if elemTruthy (doc.find "properties") = true then
      (match doc.find "properties" with
       | some p =>
         (match p.find "extended-text" with
          | some ext => getElementFullText (some ext)
          | none => "")
       | none => "")
      else "") =
      (match (doc.find "properties").bind (fun p => p.find "extended-text") with
       | some e => getElementFullText (some e)
       | none => "") := by
    cases hp : doc.find "properties" with
    | none => simp [elemTruthy]
    | some p =>
      cases hc : p.children with
      | nil =>
        simp [elemTruthy, XmlForest.isNil, hc, XmlElem.find, forestFind]
      | cons c rest =>
        simp [elemTruthy, XmlForest.isNil, hc]
  rw [hext]
  cases hE : (doc.find "properties").bind (fun p => p.find "extended-text") with
  | none =>
    simp only []
    by_cases hpj : String.intercalate " " (passageTexts doc) = ""
    · by_cases hhl : cleanText (getElementFullText (doc.find "headline")) = ""
      · simp [hpj, hhl]
      · simp [hpj, hhl]
    · simp [hpj]
  | some e =>
    by_cases he : getElementFullText (some e) = ""
    · simp only [he]
      by_cases hpj : String.intercalate " " (passageTexts doc) = ""
      · by_cases hhl : cleanText (getElementFullText (doc.find "headline")) = ""
        · simp [hpj, hhl]
        · simp [hpj, hhl]
      · simp [hpj]
    · simp [he]

/-- Helper for C8: the event trace of the polling loop started at attempt
`a` (with `10 - a` attempts remaining) is `n` get-sleep pairs optionally
followed by a final get. -/
theorem pollAux_trace_shape {α : Type} (oracle : Nat → PollAttempt α) :
    ∀ (m a : Nat), a + m = 10 →
      ∃ n, (a + n ≤ 9 ∧ (pollAux oracle a).1 =
          (List.replicate n [PollEvent.get, PollEvent.sleep]).flatten ++
            [PollEvent.get]) ∨
        (a + n = 10 ∧ (pollAux oracle a).1 =
          (List.replicate n [PollEvent.get, PollEvent.sleep]).flatten) := by
  intro m
  induction m with
  | zero =>
    intro a ha
    have h10 : ¬ a < 10 := by omega
    refine ⟨0, Or.inr ⟨by omega, ?_⟩⟩
    rw [pollAux.eq_def]
    simp [h10]
  | succ m ih =>
    intro a ha
    have hlt : a < 10 := by omega
    cases ho : oracle a with
    | exn msg =>
      refine ⟨0, Or.inl ⟨by omega, ?_⟩⟩
      rw [pollAux.eq_def]
      simp [hlt, ho]
    | badStatus =>
      obtain ⟨n, hn⟩ := ih (a + 1) (by omega)
      refine ⟨n + 1, ?_⟩
      rcases hn with ⟨h9, htr⟩ | ⟨hdone, htr⟩
      · refine Or.inl ⟨by omega, ?_⟩
        rw [pollAux.eq_def]
        simp [hlt, ho, htr, List.replicate_succ]
      · refine Or.inr ⟨by omega, ?_⟩
        rw [pollAux.eq_def]
        simp [hlt, ho, htr, List.replicate_succ]
    | notDone =>
      obtain ⟨n, hn⟩ := ih (a + 1) (by omega)
      refine ⟨n + 1, ?_⟩
      rcases hn with ⟨h9, htr⟩ | ⟨hdone, htr⟩
      · refine Or.inl ⟨by omega, ?_⟩
        rw [pollAux.eq_def]
        simp [hlt, ho, htr, List.replicate_succ]
      · refine Or.inr ⟨by omega, ?_⟩
        rw [pollAux.eq_def]
        simp [hlt, ho, htr, List.replicate_succ]
    | done dec =>
      refine ⟨0, Or.inl ⟨by omega, ?_⟩⟩
      rw [pollAux.eq_def]
      cases dec <;> simp [hlt, ho]

theorem replicate_getsleep_count (n : Nat) :
    ((List.replicate n [PollEvent.get, PollEvent.sleep]).flatten).count
      PollEvent.get = n := by
  induction n with
  | zero => rfl
  | succ n ih => simp [List.replicate_succ, List.count_cons, ih]

/-- Helper for C8: when the first `k` attempts report non-200 or not-done
and attempt `k` (within budget) reports done with a decodable payload, the
loop returns that payload and performed exactly `k + 1` GETs. -/
theorem pollAux_stops_at_done {α : Type} (oracle : Nat → PollAttempt α) :
    ∀ (k a : Nat) (p : α), a + k < 10 →
      (∀ j, j < k → oracle (a + j) = .badStatus ∨ oracle (a + j) = .notDone) →
      oracle (a + k) = .done (.ok p) →
      (pollAux oracle a).2 = .ok (some p) ∧
        (pollAux oracle a).1.count PollEvent.get = k + 1 := by
  intro k
  induction k with
  | zero =>
    intro a p ha _ hd
    have hlt : a < 10 := by omega
    rw [Nat.add_zero] at hd
    constructor
    · rw [pollAux.eq_def]
      simp [hlt, hd]
    · rw [pollAux.eq_def]
      simp [hlt, hd]
  | succ k ih =>
    intro a p ha hcont hd
    have hlt : a < 10 := by omega
    have h0 := hcont 0 (by omega)
    rw [Nat.add_zero] at h0
    have ihres := ih (a + 1) p (by omega)
      (by intro j hj
          have := hcont (j + 1) (by omega)
          rwa [show a + (j + 1) = a + 1 + j by omega] at this)
      (by rwa [show a + (k + 1) = a + 1 + k by omega] at hd)
    rcases h0 with h0 | h0
    · constructor
      · rw [pollAux.eq_def]
        simp [hlt, h0, ihres.1]
      · rw [pollAux.eq_def]
        simp [hlt, h0, List.count_cons, ihres.2]
    · constructor
      · rw [pollAux.eq_def]
        simp [hlt, h0, ihres.1]
      · rw [pollAux.eq_def]
        simp [hlt, h0, List.count_cons, ihres.2]

/-- Helper for C8: an operation that never reports done within the attempt
budget yields no payload, and no error either. -/
theorem pollAux_no_done {α : Type} (oracle : Nat → PollAttempt α) :
    ∀ (m a : Nat), a + m = 10 →
      (∀ j, a ≤ j → j < 10 →
        oracle j = .badStatus ∨ oracle j = .notDone) →
      (pollAux oracle a).2 = .ok none := by
  intro m
  induction m with
  | zero =>
    intro a ha _
    have h10 : ¬ a < 10 := by omega
    rw [pollAux.eq_def]
    simp [h10]
  | succ m ih =>
    intro a ha hcont
    have hlt : a < 10 := by omega
    have hrec := ih (a + 1) (by omega)
      (by intro j hj hj10; exact hcont j (by omega) hj10)
    rcases hcont a (by omega) hlt with h0 | h0
    · rw [pollAux.eq_def]
      simp [hlt, h0, hrec]
    · rw [pollAux.eq_def]
      simp [hlt, h0, hrec]

/-- C8: per operation id the polling loop (i) performs at most 10 GET
attempts, (ii) produces a trace of get-sleep pairs — exactly one one-unit
sleep between consecutive attempts, whether or not the HTTP status call
succeeded — with only a done (or raising) attempt breaking out sleep-less,
(iii) stops at the first attempt reporting done, decoding exactly that one
payload (so at most one decoded payload per operation, the result being an
`Option`), and (iv) an operation that never reports done within the 10
attempts yields no payload and no error (so the surrounding batch
continues). -/
theorem poll_loop_bounded (α : Type) (oracle : Nat → PollAttempt α) :
    (pollOp oracle).1.count PollEvent.get ≤ 10 ∧
    (∃ n, (n ≤ 9 ∧ (pollOp oracle).1 =
        (List.replicate n [PollEvent.get, PollEvent.sleep]).flatten ++
          [PollEvent.get]) ∨
      (n = 10 ∧ (pollOp oracle).1 =
        (List.replicate n [PollEvent.get, PollEvent.sleep]).flatten)) ∧
    (∀ (k : Nat) (p : α), k < 10 →
      (∀ j, j < k → oracle j = .badStatus ∨ oracle j = .notDone) →
      oracle k = .done (.ok p) →
      (pollOp oracle).2 = .ok (some p) ∧
        (pollOp oracle).1.count PollEvent.get = k + 1) ∧
    ((∀ j, j < 10 → oracle j = .badStatus ∨ oracle j = .notDone) →
      (pollOp oracle).2 = .ok none) := by
  have hshape := pollAux_trace_shape oracle 10 0 (by omega)
  refine ⟨?_, ?_, ?_, ?_⟩
  · obtain ⟨n, hn⟩ := hshape
    rcases hn with ⟨h9, htr⟩ | ⟨h10, htr⟩
    · unfold pollOp
      rw [htr]
      simp [List.count_append, replicate_getsleep_count, List.count_cons]
      omega
    · unfold pollOp
      rw [htr, replicate_getsleep_count]
      omega
  · obtain ⟨n, hn⟩ := hshape
    refine ⟨n, ?_⟩
    unfold pollOp
    simpa using hn
  · intro k p hk hcont hd
    exact pollAux_stops_at_done oracle k 0 p (by omega)
      (by intro j hj; simpa using hcont j hj) (by simpa using hd)
  · intro hcont
    exact pollAux_no_done oracle 10 0 (by omega) (fun j _ hj10 => hcont j hj10)

/-- Witness for C8: with two non-200 attempts followed by a done attempt,
the loop returns that payload after exactly 3 GETs. -/
theorem poll_loop_bounded_witness :
    (pollOp pollOracleW).2 = Except.ok (some "payload") ∧
      (pollOp pollOracleW).1.count PollEvent.get = 3 :=
  (poll_loop_bounded String pollOracleW).2.2.1 2 "payload" (by omega)
    (by intro j hj
        interval_cases j <;> exact Or.inl rfl)
    rfl
